import Mathlib

/-!
Verification of the array slicing engine (arraySlice) and arrayEnumerate.

The dispatcher (FunctionArraySlice::executeImpl) and arrayEnumerate come from
the C++ sources.  The GatherUtils slice executors and the index resolver are
not part of the available sources; they are modelled from the specification
(section 4.2, Index Resolver; section 4.3, Slice Executors: each executor is
equivalent to invoking the resolver per row and copying the resolved range).
-/

namespace DB

/-- Modelled from the spec: step 1 of the Index Resolver (section 4.2).
Determine the 1-based start position s from the row length n and the raw
offset parameter: absent gives 1, positive o gives o, negative o gives
n + o + 1 (counting from the right), and a literal 0 gives s = 0, later
clamped to 1 (section 9, open question resolution). -/
def resolveStart (n : Nat) (o : Option Int) : Int :=
  match o with
  | none => 1
  | some v => if 0 < v then v else if v < 0 then (n : Int) + v + 1 else 0

/-- Modelled from the spec: step 2 of the Index Resolver (section 4.2).
Determine the exclusive 1-based end position e.  With the length parameter
absent: e = n when the offset was also absent (identity case), otherwise
e = n + 1 (unbounded rightward).  With a length value v: e = s + v when
v is nonnegative, and e = n + v + 1 when v is negative. -/
def resolveEnd (n : Nat) (o : Option Int) (s : Int) (l : Option Int) : Int :=
  match l with
  | none =>
    match o with
    | none => (n : Int)
    | some _ => (n : Int) + 1
  | some v => if 0 ≤ v then s + v else (n : Int) + v + 1

/-- Modelled from the spec: step 3 of the Index Resolver (section 4.2), the
clamp of a 1-based position into the interval from 1 to n + 1. -/
def clampPos (n : Nat) (x : Int) : Int :=
  max 1 (min x ((n : Int) + 1))

/-- Modelled from the spec: the full Index Resolver (section 4.2).  Maps the
row length and the raw offset and length parameters to a half-open 0-based
element range.  Steps: compute s and e, clamp both into the interval from 1
to n + 1, then output start = clamped s - 1 and end = max start (clamped e - 1). -/
def resolveRange (n : Nat) (o l : Option Int) : Nat × Nat :=
  let s := resolveStart n o
  let e := resolveEnd n o s l
  let s1 := clampPos n s
  let e1 := clampPos n e
  let start := (s1 - 1).toNat
  (start, max start (e1 - 1).toNat)

/-- Modelled from the spec: the copy step of a Slice Executor on one row
(section 4.3): the elements of the resolved range are copied unchanged, in
original order, into the output row. -/
def sliceRow (o l : Option Int) (row : List α) : List α :=
  let r := resolveRange row.length o l
  (row.drop r.1).take (r.2 - r.1)

/-- An offset or length argument column as the dispatcher classifies it:
absent (or only-null), a single shared constant, or one value per row. -/
inductive Param where
  | absent : Param
  | const : Int → Param
  | dynamic : List Int → Param

/-- The execution path chosen by the dispatcher, one constructor per
GatherUtils entry point used by FunctionArraySlice::executeImpl, plus the
identity path that returns the input column unchanged. -/
inductive ExecPath where
  | returnInput : ExecPath
  | leftConstOffsetUnbounded : Nat → ExecPath
  | rightConstOffsetUnbounded : Nat → ExecPath
  | leftConstOffsetBounded : Nat → Int → ExecPath
  | rightConstOffsetBounded : Nat → Int → ExecPath
  | dynamicOffsetUnbounded : List Int → ExecPath
  | dynamicOffsetBounded : List Int → List Int → ExecPath

/-- The dispatch decision of FunctionArraySlice::executeImpl: inspects which
of offset and length are absent, constant or per-row, and picks the executor.
A positive constant offset o goes left-anchored with 0-based offset o - 1; a
nonpositive one goes right-anchored with offset -o.  An absent offset with a
per-row length builds a constant offset column of value 1 expanded to the
row count.  A constant parameter passed to a dynamic path is expanded to one
copy per row, as the constant column logically holds. -/
def choosePath (size : Nat) : Param → Param → ExecPath
  | .absent, .absent => .returnInput
  | .absent, .const c => .leftConstOffsetBounded 0 c
  | .absent, .dynamic ls => .dynamicOffsetBounded (List.replicate size 1) ls
  | .const o, .absent =>
    if 0 < o then .leftConstOffsetUnbounded (o - 1).toNat
    else .rightConstOffsetUnbounded (-o).toNat
  | .const o, .const c =>
    if 0 < o then .leftConstOffsetBounded (o - 1).toNat c
    else .rightConstOffsetBounded (-o).toNat c
  | .const o, .dynamic ls => .dynamicOffsetBounded (List.replicate size o) ls
  | .dynamic os, .absent => .dynamicOffsetUnbounded os
  | .dynamic os, .const c => .dynamicOffsetBounded os (List.replicate size c)
  | .dynamic os, .dynamic ls => .dynamicOffsetBounded os ls

/-- Modelled from the spec: left-anchored unbounded executor, equivalent to
the resolver per row at the 1-based offset reconstructed from its 0-based
parameter. -/
def sliceFromLeftConstantOffsetUnbounded (off : Nat) (rows : List (List α)) : List (List α) :=
  rows.map (sliceRow (some ((off : Int) + 1)) none)

/-- Modelled from the spec: right-anchored unbounded executor, equivalent to
the resolver per row at the nonpositive 1-based offset -off. -/
def sliceFromRightConstantOffsetUnbounded (off : Nat) (rows : List (List α)) : List (List α) :=
  rows.map (sliceRow (some (-(off : Int))) none)

/-- Modelled from the spec: left-anchored bounded executor. -/
def sliceFromLeftConstantOffsetBounded (off : Nat) (len : Int) (rows : List (List α)) :
    List (List α) :=
  rows.map (sliceRow (some ((off : Int) + 1)) (some len))

/-- Modelled from the spec: right-anchored bounded executor. -/
def sliceFromRightConstantOffsetBounded (off : Nat) (len : Int) (rows : List (List α)) :
    List (List α) :=
  rows.map (sliceRow (some (-(off : Int))) (some len))

/-- Modelled from the spec: fully dynamic unbounded executor, resolving each
row with that rows offset value. -/
def sliceDynamicOffsetUnbounded (os : List Int) (rows : List (List α)) : List (List α) :=
  List.zipWith (fun row o => sliceRow (some o) none row) rows os

/-- Modelled from the spec: fully dynamic bounded executor, resolving each
row with that rows offset and length values. -/
def sliceDynamicOffsetBounded (os ls : List Int) (rows : List (List α)) : List (List α) :=
  List.zipWith (fun row p => sliceRow (some p.1) (some p.2) row) rows (os.zip ls)

/-- Run the chosen execution path on the array column. -/
def runPath (rows : List (List α)) : ExecPath → List (List α)
  | .returnInput => rows
  | .leftConstOffsetUnbounded k => sliceFromLeftConstantOffsetUnbounded k rows
  | .rightConstOffsetUnbounded k => sliceFromRightConstantOffsetUnbounded k rows
  | .leftConstOffsetBounded k c => sliceFromLeftConstantOffsetBounded k c rows
  | .rightConstOffsetBounded k c => sliceFromRightConstantOffsetBounded k c rows
  | .dynamicOffsetUnbounded os => sliceDynamicOffsetUnbounded os rows
  | .dynamicOffsetBounded os ls => sliceDynamicOffsetBounded os ls rows

/-- The slicing function on an array column: dispatch, then execute, as in
FunctionArraySlice::executeImpl after the only-null short circuit. -/
def arraySlice (rows : List (List α)) (off len : Param) : List (List α) :=
  runPath rows (choosePath rows.length off len)

/-- Result of executeImpl: either an array column, or the constant column of
the default value produced by the only-null short circuit. -/
inductive SliceResult (α : Type) where
  | column : List (List α) → SliceResult α
  | constDefault : Nat → SliceResult α

/-- FunctionArraySlice::executeImpl.  When the return type is only-null
(which getReturnTypeImpl makes equal to the array argument type, hence to the
array argument being only-null), return a constant column of the default
value sized to the input row count; otherwise dispatch and slice. -/
def executeImpl (returnTypeOnlyNull : Bool) (inputRowsCount : Nat)
    (rows : List (List α)) (off len : Param) : SliceResult α :=
  if returnTypeOnlyNull then .constDefault inputRowsCount
  else .column (arraySlice rows off len)

/-- The clamped position is at least 1. -/
theorem clampPos_one_le (n : Nat) (x : Int) : 1 ≤ clampPos n x :=
  le_max_left _ _

/-- The clamped position is at most n + 1. -/
theorem clampPos_le_succ (n : Nat) (x : Int) : clampPos n x ≤ (n : Int) + 1 := by
  unfold clampPos
  exact max_le (by omega) (min_le_right _ _)

/-- The resolved range is well formed: start at most end, end at most n. -/
theorem resolveRange_le (n : Nat) (o l : Option Int) :
    (resolveRange n o l).1 ≤ (resolveRange n o l).2 ∧ (resolveRange n o l).2 ≤ n := by
  have h1 := clampPos_one_le n (resolveStart n o)
  have h2 := clampPos_le_succ n (resolveStart n o)
  have h3 := clampPos_one_le n (resolveEnd n o (resolveStart n o) l)
  have h4 := clampPos_le_succ n (resolveEnd n o (resolveStart n o) l)
  simp only [resolveRange]
  omega

/-- The sliced row has exactly end minus start elements. -/
theorem sliceRow_length_eq (o l : Option Int) (row : List α) :
    (sliceRow o l row).length =
      (resolveRange row.length o l).2 - (resolveRange row.length o l).1 := by
  have h := resolveRange_le row.length o l
  simp only [sliceRow, List.length_take, List.length_drop]
  omega

/-- Claim C1: for every row length and all integer offset and length
parameters (any sign and magnitude), the resolver yields a range with
0 <= start <= end <= row length, and the output row has exactly end - start
elements; slicing is total, with no error path and no out-of-bounds access. -/
theorem arraySlice_bounds_never_throw (row : List α) (o l : Int) :
    (resolveRange row.length (some o) (some l)).1 ≤
        (resolveRange row.length (some o) (some l)).2 ∧
    (resolveRange row.length (some o) (some l)).2 ≤ row.length ∧
    (sliceRow (some o) (some l) row).length =
      (resolveRange row.length (some o) (some l)).2 -
        (resolveRange row.length (some o) (some l)).1 :=
  ⟨(resolveRange_le row.length (some o) (some l)).1,
   (resolveRange_le row.length (some o) (some l)).2,
   sliceRow_length_eq (some o) (some l) row⟩

/-- Claim C2: with both the offset and the length parameters absent
(only-null), the dispatcher returns the input array column unchanged, for
every array column, including rows of length zero. -/
theorem arraySlice_identity (rows : List (List α)) :
    arraySlice rows Param.absent Param.absent = rows := rfl

/-- Claim C4: for a negative offset o the 1-based start position is
n + o + 1, counting from the right; concretely, slicing the row
1, 2, 3, 4, 5, 6 with offset -4 and length 2 yields 3, 4. -/
theorem arraySlice_negative_offset (n : Nat) (o : Int) (h : o < 0) :
    resolveStart n (some o) = (n : Int) + o + 1 ∧
    arraySlice [[1, 2, 3, 4, 5, 6]] (Param.const (-4)) (Param.const 2) = [[3, 4]] := by
  refine ⟨?_, by decide⟩
  simp only [resolveStart]
  split_ifs <;> omega

/-- Witness for claim C4 at n = 6, o = -4. -/
theorem arraySlice_negative_offset_witness :
    (-4 : Int) < 0 ∧
    (resolveStart 6 (some (-4)) = (6 : Int) + (-4) + 1 ∧
      arraySlice [[1, 2, 3, 4, 5, 6]] (Param.const (-4)) (Param.const 2) = [[3, 4]]) :=
  ⟨by decide, arraySlice_negative_offset 6 (-4) (by decide)⟩

/-- Claim C5: for a negative length l the exclusive 1-based end position is
n + l + 1, independent of how the start position was derived; concretely,
slicing the row 1, 2, 3, 4, 5, 6 with offset 2 and length -1 yields
2, 3, 4, 5. -/
theorem arraySlice_negative_length (n : Nat) (o : Option Int) (s t l : Int) (h : l < 0) :
    resolveEnd n o s (some l) = (n : Int) + l + 1 ∧
    resolveEnd n o s (some l) = resolveEnd n o t (some l) ∧
    arraySlice [[1, 2, 3, 4, 5, 6]] (Param.const 2) (Param.const (-1)) = [[2, 3, 4, 5]] := by
  refine ⟨?_, ?_, by decide⟩
  · simp only [resolveEnd]
    split_ifs <;> omega
  · simp only [resolveEnd]
    split_ifs <;> omega

/-- Witness for claim C5 at n = 6, o = 2, s = 2, t = 7, l = -1. -/
theorem arraySlice_negative_length_witness :
    (-1 : Int) < 0 ∧
    (resolveEnd 6 (some 2) 2 (some (-1)) = (6 : Int) + (-1) + 1 ∧
      resolveEnd 6 (some 2) 2 (some (-1)) = resolveEnd 6 (some 2) 7 (some (-1)) ∧
      arraySlice [[1, 2, 3, 4, 5, 6]] (Param.const 2) (Param.const (-1)) = [[2, 3, 4, 5]]) :=
  ⟨by decide, arraySlice_negative_length 6 (some 2) 2 7 (-1) (by decide)⟩

/-- Zipping against a replicated constant column is pointwise application of
the constant. -/
theorem zipWith_zip_replicate_left (f : List α → Int → Int → List α) (c : Int) :
    ∀ (rows : List (List α)) (ls : List Int),
      List.zipWith (fun row p => f row p.1 p.2) rows ((List.replicate rows.length c).zip ls) =
        List.zipWith (fun row l => f row c l) rows ls := by
  intro rows
  induction rows with
  | nil => intro ls; rfl
  | cons r rs ih =>
    intro ls
    cases ls with
    | nil => rfl
    | cons a as =>
      simp only [List.length_cons, List.replicate_succ, List.zip_cons_cons, List.zipWith_cons_cons]
      exact congrArg _ (ih as)

/-- Claim C3: with the offset absent and a per-row length column, the
dispatcher routes to the fully dynamic bounded path with a constant offset
column of value 1 expanded to the row count, and the result resolves each
row with offset 1 and that rows length value. -/
theorem arraySlice_absent_offset_dynamic_length (rows : List (List α)) (ls : List Int) :
    choosePath rows.length Param.absent (Param.dynamic ls) =
      ExecPath.dynamicOffsetBounded (List.replicate rows.length 1) ls ∧
    arraySlice rows Param.absent (Param.dynamic ls) =
      List.zipWith (fun row l => sliceRow (some 1) (some l) row) rows ls := by
  refine ⟨rfl, ?_⟩
  exact zipWith_zip_replicate_left (fun row a b => sliceRow (some a) (some b) row) 1 rows ls

/-- With any offset value present, the resolved end position does not depend
on the offset value itself, only on the derived start position. -/
theorem resolveEnd_offset_value_irrelevant (n : Nat) (a b s : Int) (l : Option Int) :
    resolveEnd n (some a) s l = resolveEnd n (some b) s l := by
  cases l <;> rfl

/-- Two present offset values that resolve to the same start position give
the same slice for every length parameter. -/
theorem sliceRow_offset_congr (row : List α) (a b : Int) (l : Option Int)
    (h : resolveStart row.length (some a) = resolveStart row.length (some b)) :
    sliceRow (some a) l row = sliceRow (some b) l row := by
  simp only [sliceRow, resolveRange, h,
    resolveEnd_offset_value_irrelevant row.length a b (resolveStart row.length (some b)) l]

/-- The dispatcher with a constant offset and no length reduces to the
resolver per row at that offset: the positive branch reconstructs the
1-based offset from its 0-based parameter, the nonpositive branch from the
negated right offset. -/
theorem arraySlice_const_absent (rows : List (List α)) (o : Int) :
    arraySlice rows (Param.const o) Param.absent = rows.map (sliceRow (some o) none) := by
  simp only [arraySlice, choosePath]
  by_cases h : 0 < o
  · rw [if_pos h]
    show rows.map (sliceRow (some (((o - 1).toNat : Int) + 1)) none) = _
    rw [show ((o - 1).toNat : Int) + 1 = o by omega]
  · rw [if_neg h]
    show rows.map (sliceRow (some (-((-o).toNat : Int))) none) = _
    rw [show -(((-o).toNat : Int)) = o by omega]

/-- The dispatcher with a constant offset and a constant length reduces to
the resolver per row at those parameters. -/
theorem arraySlice_const_const (rows : List (List α)) (o c : Int) :
    arraySlice rows (Param.const o) (Param.const c) =
      rows.map (sliceRow (some o) (some c)) := by
  simp only [arraySlice, choosePath]
  by_cases h : 0 < o
  · rw [if_pos h]
    show rows.map (sliceRow (some (((o - 1).toNat : Int) + 1)) (some c)) = _
    rw [show ((o - 1).toNat : Int) + 1 = o by omega]
  · rw [if_neg h]
    show rows.map (sliceRow (some (-((-o).toNat : Int))) (some c)) = _
    rw [show -(((-o).toNat : Int)) = o by omega]

/-- A length parameter as the dispatcher receives it: absent or a constant. -/
def lenParam : Option Int → Param
  | none => Param.absent
  | some c => Param.const c

/-- Claim C6: left/right symmetry.  For rows of length n, slicing at the
negative offset -k equals slicing at the positive offset n - k + 1 whenever
that value lies between 1 and n, for every length parameter; concretely the
row 1, 2, 3, 4, 5, 6 sliced at offset -5 with length -1 equals the same row
sliced at offset 2 with length -1, namely 2, 3, 4, 5. -/
theorem arraySlice_left_right_symmetry (rows : List (List α)) (n : Nat) (k : Int)
    (l : Option Int) (hrows : ∀ r ∈ rows, r.length = n)
    (h1 : 1 ≤ (n : Int) - k + 1) (h2 : (n : Int) - k + 1 ≤ (n : Int)) :
    arraySlice rows (Param.const (-k)) (lenParam l) =
      arraySlice rows (Param.const ((n : Int) - k + 1)) (lenParam l) ∧
    arraySlice [[1, 2, 3, 4, 5, 6]] (Param.const (-5)) (Param.const (-1)) = [[2, 3, 4, 5]] ∧
    arraySlice [[1, 2, 3, 4, 5, 6]] (Param.const 2) (Param.const (-1)) = [[2, 3, 4, 5]] := by
  refine ⟨?_, by decide, by decide⟩
  have hmain : ∀ r : List α, r ∈ rows →
      sliceRow (some (-k)) l r = sliceRow (some ((n : Int) - k + 1)) l r := by
    intro r hr
    apply sliceRow_offset_congr
    rw [hrows r hr]
    simp only [resolveStart]
    split_ifs <;> omega
  cases l with
  | none =>
    rw [show lenParam none = Param.absent from rfl]
    rw [arraySlice_const_absent, arraySlice_const_absent]
    exact List.map_congr_left hmain
  | some c =>
    rw [show lenParam (some c) = Param.const c from rfl]
    rw [arraySlice_const_const, arraySlice_const_const]
    exact List.map_congr_left hmain

/-- Witness for claim C6 at the row 1, 2, 3, 4, 5, 6 with n = 6, k = 5 and
length -1. -/
theorem arraySlice_left_right_symmetry_witness :
    ((1 : Int) ≤ (6 : Int) - 5 + 1 ∧ (6 : Int) - 5 + 1 ≤ (6 : Int)) ∧
    (arraySlice [[1, 2, 3, 4, 5, 6]] (Param.const (-5)) (lenParam (some (-1))) =
        arraySlice [[1, 2, 3, 4, 5, 6]] (Param.const ((6 : Int) - 5 + 1)) (lenParam (some (-1))) ∧
      arraySlice [[1, 2, 3, 4, 5, 6]] (Param.const (-5)) (Param.const (-1)) = [[2, 3, 4, 5]] ∧
      arraySlice [[1, 2, 3, 4, 5, 6]] (Param.const 2) (Param.const (-1)) = [[2, 3, 4, 5]]) :=
  ⟨⟨by decide, by decide⟩,
    arraySlice_left_right_symmetry [[1, 2, 3, 4, 5, 6]] 6 5 (some (-1))
      (by decide) (by decide) (by decide)⟩

/-- Claim C7: element fidelity.  Every position of the resolved range is
copied verbatim and in order: the element at position j of the output is the
element at position start + j of the input row; concretely, slicing the row
1, 2, NULL, 4, 5 with offset 2 and length 3 yields 2, NULL, 4, the null
element preserved. -/
theorem arraySlice_element_fidelity (row : List α) (o l : Int) (j : Nat)
    (hj : j < (resolveRange row.length (some o) (some l)).2 -
        (resolveRange row.length (some o) (some l)).1) :
    (sliceRow (some o) (some l) row)[j]? =
      row[(resolveRange row.length (some o) (some l)).1 + j]? ∧
    arraySlice [[some 1, some 2, none, some 4, some 5]] (Param.const 2) (Param.const 3) =
      [[some 2, none, some 4]] := by
  refine ⟨?_, by decide⟩
  simp only [sliceRow]
  rw [List.getElem?_take, if_pos hj, List.getElem?_drop]

/-- Witness for claim C7 at the row with a null marker, offset 2, length 3,
output position 0. -/
theorem arraySlice_element_fidelity_witness :
    0 < (resolveRange (List.length [some 1, some 2, none, some 4, some 5])
          (some 2) (some 3)).2 -
        (resolveRange (List.length [some 1, some 2, none, some 4, some 5])
          (some 2) (some 3)).1 ∧
    ((sliceRow (some 2) (some 3) [some 1, some 2, none, some 4, some 5])[0]? =
        [some 1, some 2, none, some 4, some 5][(resolveRange
          (List.length [some 1, some 2, none, some 4, some 5]) (some 2) (some 3)).1 + 0]? ∧
      arraySlice [[some 1, some 2, none, some 4, some 5]] (Param.const 2) (Param.const 3) =
        [[some 2, none, some 4]]) :=
  ⟨by decide,
    arraySlice_element_fidelity [some 1, some 2, none, some 4, some 5] 2 3 0 (by decide)⟩

/-- Claim C8 as stated is false: slicing with offset 0 is not identical to
slicing with offset 1 for every length parameter.  At the row
1, 2, 3, 4, 5, 6 with length 2, offset 0 yields the single element 1 while
offset 1 yields 1, 2, because the resolver computes the end e = s + l from
the unclamped start s = 0. -/
theorem arraySlice_offset_zero_counterexample :
    arraySlice [[1, 2, 3, 4, 5, 6]] (Param.const 0) (Param.const 2) ≠
      arraySlice [[1, 2, 3, 4, 5, 6]] (Param.const 1) (Param.const 2) := by decide

/-- Two parameter pairs resolving to the same range slice a row equally. -/
theorem sliceRow_range_congr (r : List α) (o1 l1 o2 l2 : Option Int)
    (h : resolveRange r.length o1 l1 = resolveRange r.length o2 l2) :
    sliceRow o1 l1 r = sliceRow o2 l2 r := by
  simp only [sliceRow, h]

/-- Offset 0 resolves like offset 1 when the length is absent. -/
theorem resolveRange_zero_absent (n : Nat) :
    resolveRange n (some 0) none = resolveRange n (some 1) none := by
  simp only [resolveRange, resolveStart, resolveEnd, clampPos, Prod.mk.injEq]
  split_ifs <;> omega

/-- Offset 0 resolves like offset 1 when the length is negative. -/
theorem resolveRange_zero_neg (n : Nat) (l : Int) (h : l < 0) :
    resolveRange n (some 0) (some l) = resolveRange n (some 1) (some l) := by
  simp only [resolveRange, resolveStart, resolveEnd, clampPos, Prod.mk.injEq]
  split_ifs <;> omega

/-- Offset 0 with a positive length l resolves like offset 1 with length
l - 1, since the end position is computed from the unclamped start 0. -/
theorem resolveRange_zero_pos (n : Nat) (l : Int) (h : 1 ≤ l) :
    resolveRange n (some 0) (some l) = resolveRange n (some 1) (some (l - 1)) := by
  simp only [resolveRange, resolveStart, resolveEnd, clampPos, Prod.mk.injEq]
  split_ifs <;> omega

/-- Offset 0 with length 0 resolves to the empty range. -/
theorem sliceRow_offset_zero_length_zero (r : List α) :
    sliceRow (some 0) (some 0) r = [] := by
  have h : resolveRange r.length (some 0) (some 0) = (0, 0) := by
    simp only [resolveRange, resolveStart, resolveEnd, clampPos, Prod.mk.injEq]
    split_ifs <;> omega
  simp [sliceRow, h]

/-- Claim C8, amended: a literal constant offset 0 is not rejected; the
resolver computes s = 0 and the clamp raises it to 1.  With the length
parameter absent or negative this behaves exactly like offset 1; but with a
length l at least 1 the end e = 0 + l is computed before the clamp, so the
result equals slicing with offset 1 and length l - 1, and with length 0 the
result row is empty. -/
theorem arraySlice_offset_zero_amended (rows : List (List α)) (l : Int) :
    arraySlice rows (Param.const 0) Param.absent =
      arraySlice rows (Param.const 1) Param.absent ∧
    (l < 0 → arraySlice rows (Param.const 0) (Param.const l) =
      arraySlice rows (Param.const 1) (Param.const l)) ∧
    (1 ≤ l → arraySlice rows (Param.const 0) (Param.const l) =
      arraySlice rows (Param.const 1) (Param.const (l - 1))) ∧
    arraySlice rows (Param.const 0) (Param.const 0) =
      rows.map (fun _ => ([] : List α)) := by
  refine ⟨?_, fun h => ?_, fun h => ?_, ?_⟩
  · rw [arraySlice_const_absent, arraySlice_const_absent]
    exact List.map_congr_left fun r _ =>
      sliceRow_range_congr r _ _ _ _ (resolveRange_zero_absent r.length)
  · rw [arraySlice_const_const, arraySlice_const_const]
    exact List.map_congr_left fun r _ =>
      sliceRow_range_congr r _ _ _ _ (resolveRange_zero_neg r.length l h)
  · rw [arraySlice_const_const, arraySlice_const_const]
    exact List.map_congr_left fun r _ =>
      sliceRow_range_congr r _ _ _ _ (resolveRange_zero_pos r.length l h)
  · rw [arraySlice_const_const]
    exact List.map_congr_left fun r _ => sliceRow_offset_zero_length_zero r

/-- Witness for the amended claim C8 at the row 1, 2, 3 with length -2. -/
theorem arraySlice_offset_zero_amended_witness :
    (-2 : Int) < 0 ∧
    arraySlice [[1, 2, 3]] (Param.const 0) (Param.const (-2)) =
      arraySlice [[1, 2, 3]] (Param.const 1) (Param.const (-2)) :=
  ⟨by decide, (arraySlice_offset_zero_amended [[1, 2, 3]] (-2)).2.1 (by decide)⟩

/-- Claim C9: when the array argument type is only-null, so that the return
type computed by getReturnTypeImpl (which returns the argument type) is
only-null, executeImpl short-circuits to a constant default-value column of
size equal to the input row count, without running any slicing logic: the
result is independent of the rows and of the offset and length arguments. -/
theorem executeImpl_only_null_short_circuit (n : Nat) (rows rs : List (List α))
    (off len off2 len2 : Param) :
    executeImpl true n rows off len = SliceResult.constDefault n ∧
    executeImpl true n rows off len = executeImpl true n rs off2 len2 :=
  ⟨rfl, rfl⟩

/-- A variable-length array column: one shared flat value buffer and the
per-row cumulative end offsets into it (ColumnArray in the sources). -/
structure ColumnArray (α : Type) where
  data : List α
  offsets : List Nat

/-- The per-row lengths recorded by the offsets array: each row length is its
end offset minus the previous end offset. -/
def rowLens : List Nat → Nat → List Nat
  | [], _ => []
  | off :: rest, prev => (off - prev) :: rowLens rest off

/-- The rows delimited by the offsets array, read from the flat buffer in row
order: each row takes the next off - prev elements. -/
def rowsFrom : List α → List Nat → Nat → List (List α)
  | _, [], _ => []
  | data, off :: rest, prev =>
    data.take (off - prev) :: rowsFrom (data.drop (off - prev)) rest off

/-- The rows of an array column. -/
def rowsOf (c : ColumnArray α) : List (List α) :=
  rowsFrom c.data c.offsets 0

/-- The offsets invariant: the offsets are nondecreasing starting from the
running position. -/
def offsetsWF : List Nat → Nat → Bool
  | [], _ => true
  | off :: rest, prev => decide (prev ≤ off) && offsetsWF rest off

/-- The final cumulative offset, which the column invariant equates with the
flat buffer length. -/
def lastOffset : List Nat → Nat → Nat
  | [], prev => prev
  | off :: rest, _ => lastOffset rest off

/-- One output row of FunctionArrayEnumerate::executeImpl: position j (0-based
within the row) holds j + 1 cast to UInt32. -/
def enumRow (len : Nat) : List Nat :=
  (List.range len).map (fun j => (j + 1) % 4294967296)

/-- The filling loop of FunctionArrayEnumerate::executeImpl: for each offset,
the buffer positions from the previous offset up to it receive the 1-based
counter within the row, cast to UInt32. -/
def enumerateFill : List Nat → Nat → List Nat
  | [], _ => []
  | off :: rest, prev => enumRow (off - prev) ++ enumerateFill rest off

/-- FunctionArrayEnumerate::executeImpl: build the counter buffer from the
offsets alone and share the offsets array of the input column; the input
elements are never read. -/
def arrayEnumerate (c : ColumnArray α) : ColumnArray Nat :=
  { data := enumerateFill c.offsets 0, offsets := c.offsets }

/-- Each enumerated row has exactly the recorded length. -/
theorem enumRow_length (len : Nat) : (enumRow len).length = len := by
  simp [enumRow]

/-- Taking exactly the length of the left part of an append yields it. -/
theorem take_append_exact (l1 l2 : List α) (n : Nat) (h : l1.length = n) :
    (l1 ++ l2).take n = l1 := by
  subst h
  exact List.take_left l1 l2

/-- Dropping exactly the length of the left part of an append yields the
right part. -/
theorem drop_append_exact (l1 l2 : List α) (n : Nat) (h : l1.length = n) :
    (l1 ++ l2).drop n = l2 := by
  subst h
  exact List.drop_left l1 l2

/-- Splitting the filled counter buffer back along the same offsets yields
one enumerated row per recorded row length. -/
theorem rowsFrom_enumerateFill :
    ∀ (offs : List Nat) (prev : Nat),
      rowsFrom (enumerateFill offs prev) offs prev = (rowLens offs prev).map enumRow := by
  intro offs
  induction offs with
  | nil => intro prev; rfl
  | cons off rest ih =>
    intro prev
    simp only [enumerateFill, rowsFrom, rowLens, List.map_cons]
    rw [take_append_exact _ _ _ (enumRow_length _), drop_append_exact _ _ _ (enumRow_length _),
      ih off]

/-- Under the offsets invariant the running position never exceeds the final
cumulative offset. -/
theorem le_lastOffset :
    ∀ (offs : List Nat) (prev : Nat), offsetsWF offs prev = true → prev ≤ lastOffset offs prev := by
  intro offs
  induction offs with
  | nil => intro prev _; exact Nat.le_refl prev
  | cons off rest ih =>
    intro prev h
    simp only [offsetsWF, Bool.and_eq_true, decide_eq_true_eq] at h
    exact Nat.le_trans h.1 (ih off h.2)

/-- Under the column invariant, the lengths of the rows read from the flat
buffer are exactly the lengths recorded by the offsets. -/
theorem rowsFrom_length_map :
    ∀ (offs : List Nat) (data : List α) (prev : Nat),
      offsetsWF offs prev = true → data.length + prev = lastOffset offs prev →
      (rowsFrom data offs prev).map List.length = rowLens offs prev := by
  intro offs
  induction offs with
  | nil => intro data prev _ _; rfl
  | cons off rest ih =>
    intro data prev hwf hlen
    simp only [offsetsWF, Bool.and_eq_true, decide_eq_true_eq] at hwf
    have hle : off ≤ lastOffset rest off := le_lastOffset rest off hwf.2
    have hlast : lastOffset (off :: rest) prev = lastOffset rest off := rfl
    rw [hlast] at hlen
    simp only [rowsFrom, rowLens, List.map_cons, List.length_take]
    congr 1
    · omega
    · exact ih (data.drop (off - prev)) off hwf.2 (by simp only [List.length_drop]; omega)

/-- Claim C10: arrayEnumerate produces a column sharing the input offsets
array, hence with the same per-row lengths as the input; within every row
the element at 0-based position j is j + 1 cast to UInt32; and the result
depends only on the offsets, never on the input elements. -/
theorem arrayEnumerate_spec (c : ColumnArray α)
    (hwf : offsetsWF c.offsets 0 = true)
    (hlast : lastOffset c.offsets 0 = c.data.length) :
    (arrayEnumerate c).offsets = c.offsets ∧
    (rowsOf (arrayEnumerate c)).map List.length = (rowsOf c).map List.length ∧
    (∀ (i : Nat) (row : List Nat), (rowsOf (arrayEnumerate c))[i]? = some row →
      ∀ (j : Nat), j < row.length → row[j]? = some ((j + 1) % 4294967296)) ∧
    (∀ (β : Type) (d : List β),
      arrayEnumerate { data := d, offsets := c.offsets } = arrayEnumerate c) := by
  have hA : rowsOf (arrayEnumerate c) = (rowLens c.offsets 0).map enumRow :=
    rowsFrom_enumerateFill c.offsets 0
  refine ⟨rfl, ?_, ?_, fun β d => rfl⟩
  · show (rowsOf (arrayEnumerate c)).map List.length =
      (rowsFrom c.data c.offsets 0).map List.length
    rw [hA, rowsFrom_length_map c.offsets c.data 0 hwf (by omega), List.map_map]
    calc (rowLens c.offsets 0).map (List.length ∘ enumRow)
        = (rowLens c.offsets 0).map id := List.map_congr_left fun a _ => enumRow_length a
      _ = rowLens c.offsets 0 := List.map_id _
  · intro i row hrow j hj
    rw [hA, List.getElem?_map] at hrow
    cases hx : (rowLens c.offsets 0)[i]? with
    | none => rw [hx] at hrow; exact absurd hrow (by simp)
    | some len =>
      rw [hx] at hrow
      injection hrow with hEq
      subst hEq
      rw [enumRow_length] at hj
      simp only [enumRow]
      rw [List.getElem?_map, List.getElem?_range hj]
      rfl

/-- Witness for claim C10 at the column with flat buffer 10, 20, 30 and
offsets 1, 3 (rows of lengths 1 and 2). -/
theorem arrayEnumerate_spec_witness :
    (offsetsWF (ColumnArray.mk [10, 20, 30] [1, 3]).offsets 0 = true ∧
      lastOffset (ColumnArray.mk [10, 20, 30] [1, 3]).offsets 0 =
        (ColumnArray.mk [10, 20, 30] [1, 3]).data.length) ∧
    ((arrayEnumerate (ColumnArray.mk [10, 20, 30] [1, 3])).offsets =
        (ColumnArray.mk [10, 20, 30] [1, 3]).offsets ∧
      (rowsOf (arrayEnumerate (ColumnArray.mk [10, 20, 30] [1, 3]))).map List.length =
        (rowsOf (ColumnArray.mk [10, 20, 30] [1, 3])).map List.length ∧
      (∀ (i : Nat) (row : List Nat),
          (rowsOf (arrayEnumerate (ColumnArray.mk [10, 20, 30] [1, 3])))[i]? = some row →
        ∀ (j : Nat), j < row.length → row[j]? = some ((j + 1) % 4294967296)) ∧
      (∀ (β : Type) (d : List β),
        arrayEnumerate { data := d, offsets := (ColumnArray.mk [10, 20, 30] [1, 3]).offsets } =
          arrayEnumerate (ColumnArray.mk [10, 20, 30] [1, 3]))) :=
  ⟨⟨by decide, by decide⟩,
    arrayEnumerate_spec (ColumnArray.mk [10, 20, 30] [1, 3]) (by decide) (by decide)⟩

end DB
